import Mathlib

/-!
Shallow embedding of `src/tty.rs` (mdcat / mdless TTY renderer).

The renderer is a single-pass, stateful event-to-text transducer.  We model:

  * the `Context` struct and its methods (`new`, `start_inline_text`,
    `end_inline_text_with_margin`, `flush_styles`, `newline`,
    `newline_and_indent`, `indent`, `enable_style`, `reset_last_style`,
    `enable_emphasis`, `add_link`, `write_pending_links`);
  * the free functions `write_event`, `start_tag`, `end_tag`, `push_tty`.

Modelling conventions:

  * Output is a trace of write calls, `List Tok`, where `Tok.str s` is a
    literal string written with `write!` and `Tok.sty s` is an opaque style
    token from the styling collaborator (termion).  Concatenating the trace
    in order gives the byte stream.
  * Rust `Vec` push/pop at the back is `xs ++ [x]` / `xs.dropLast`, and
    `Vec::last` is `xs.getLast?`; `VecDeque` `push_back`/`pop_front` is
    `xs ++ [x]` / head.  `active_styles` stores the opaque style tokens in
    push order, exactly like the `Vec<String>` in the source.
  * `usize` subtraction `-=` is overflow-checked (debug semantics): it
    yields `RenderError.underflow` when the subtrahend exceeds the value.
    Rust `panic!` calls become `RenderError.panicked msg` with the message
    from the source.  Fallible operations return `Except RenderError`.
  * `Header(level)` carries a natural number; pulldown-cmark emits header
    levels ≥ 1, and `level - 1` is the truncated subtraction.
-/

/-- Opaque style tokens requested from termion in `tty.rs`. -/
inductive Sty where
  | Reset
  | Bold
  | Italic
  | NoItalic
  | FgBlue
  | FgLightBlack
  | FgYellow
deriving DecidableEq, Repr

/-- One write call to the output sink: either a literal string or a style
token written verbatim. -/
inductive Tok where
  | str (s : String)
  | sty (s : Sty)
deriving DecidableEq, Repr

/-- The "level" the current event occurs at (enum `BlockLevel`). -/
inductive BlockLevel where
  | Block
  | Inline
deriving DecidableEq, Repr

/-- The kind of the current list item (enum `ListItemKind`). -/
inductive ListItemKind where
  | Unordered
  | Ordered (n : Nat)
deriving DecidableEq, Repr

/-- A pending link (struct `Link`). -/
structure Link where
  index : Nat
  destination : String
  title : String
deriving DecidableEq, Repr

/-- Tags of pulldown-cmark 0.1 as consumed by `start_tag` / `end_tag`. -/
inductive Tag where
  | Paragraph
  | Rule
  | Header (level : Nat)
  | BlockQuote
  | CodeBlock (info : String)
  | List (ordered_start : Option Nat)
  | Item
  | FootnoteDefinition (s : String)
  | Table
  | TableHead
  | TableRow
  | TableCell
  | Emphasis
  | Strong
  | Code
  | Link (destination title : String)
  | Image (destination title : String)
deriving DecidableEq, Repr

/-- Events of pulldown-cmark 0.1 as consumed by `write_event`. -/
inductive Event where
  | Text (s : String)
  | SoftBreak
  | HardBreak
  | Start (t : Tag)
  | End (t : Tag)
  | Html (s : String)
  | InlineHtml (s : String)
  | FootnoteReference (s : String)
deriving DecidableEq, Repr

/-- How a render run fails: an explicit `panic!` with its message, or an
overflow-checked `usize` subtraction that underflows (which aborts without
any renderer-specific diagnostic). -/
inductive RenderError where
  | panicked (msg : String)
  | underflow
deriving DecidableEq, Repr

/-- The struct `Context` of `tty.rs` (the writer is replaced by returning
the trace of writes). -/
structure Context where
  columns : Nat
  active_styles : List Sty
  emphasis_level : Nat
  indent_level : Nat
  block_level : BlockLevel
  list_item_kind : List ListItemKind
  pending_links : List Link
  next_link_index : Nat
  last_text : Option String
deriving DecidableEq, Repr

/-- String of `n` spaces, `" ".repeat(n)`. -/
def spaces (n : Nat) : String :=
  String.mk (List.replicate n ' ')

/-- Rust format `{:>2}`: the decimal representation of `n`, left-padded
with spaces to width 2. -/
def rightAlign2 (n : Nat) : String :=
  let s := toString n
  String.mk (List.replicate (2 - s.length) ' ') ++ s

/-- Repeat a string `n` times (`str.repeat(n)`). -/
def strRepeat (s : String) (n : Nat) : String :=
  String.join (List.replicate n s)

/-- `Context::new`. -/
def Context.new (columns : Nat) : Context where
  columns := columns
  active_styles := []
  emphasis_level := 0
  indent_level := 0
  block_level := BlockLevel.Inline
  list_item_kind := []
  pending_links := []
  next_link_index := 1
  last_text := none

/-- `Context::flush_styles`: write all active styles (their concatenation)
to the sink. -/
def flush_styles (c : Context) : List Tok :=
  c.active_styles.map Tok.sty

/-- `Context::newline`: write the global reset followed by a newline
(`write!(self.writer, "{}\n", style::Reset)`), then flush all active
styles. -/
def newline (c : Context) : Context × List Tok :=
  (c, Tok.sty Sty.Reset :: Tok.str "\n" :: flush_styles c)

/-- `Context::indent`: write `indent_level` many spaces. -/
def indent (c : Context) : Context × List Tok :=
  (c, [Tok.str (spaces c.indent_level)])

/-- `Context::newline_and_indent`. -/
def newline_and_indent (c : Context) : Context × List Tok :=
  (c, (newline c).2 ++ (indent c).2)

/-- `Context::start_inline_text`. -/
def start_inline_text (c : Context) : Context × List Tok :=
  match c.block_level with
  | BlockLevel.Block =>
      ({ c with block_level := BlockLevel.Inline }, (newline_and_indent c).2)
  | BlockLevel.Inline =>
      ({ c with block_level := BlockLevel.Inline }, [])

/-- `Context::end_inline_text_with_margin`. -/
def end_inline_text_with_margin (c : Context) : Context × List Tok :=
  match c.block_level with
  | BlockLevel.Inline =>
      ({ c with block_level := BlockLevel.Block }, (newline c).2)
  | BlockLevel.Block =>
      ({ c with block_level := BlockLevel.Block }, [])

/-- `Context::enable_style`: push the style and write it. -/
def enable_style (s : Sty) (c : Context) : Context × List Tok :=
  ({ c with active_styles := c.active_styles ++ [s] }, [Tok.sty s])

/-- `Context::reset_last_style`: pop the last style, write the global
reset, then flush the remaining styles. -/
def reset_last_style (c : Context) : Context × List Tok :=
  let c1 := { c with active_styles := c.active_styles.dropLast }
  (c1, Tok.sty Sty.Reset :: flush_styles c1)

/-- `Context::enable_emphasis`: increment the emphasis level and push
italic (odd level) or upright (even level). -/
def enable_emphasis (c : Context) : Context × List Tok :=
  let c1 := { c with emphasis_level := c.emphasis_level + 1 }
  if c1.emphasis_level % 2 = 1 then enable_style Sty.Italic c1
  else enable_style Sty.NoItalic c1

/-- `Context::add_link`: take the next link index, increment the counter,
push the link onto the back of the pending queue, return the index. -/
def add_link (destination title : String) (c : Context) : Nat × Context :=
  (c.next_link_index,
   { c with
      next_link_index := c.next_link_index + 1,
      pending_links :=
        c.pending_links ++ [⟨c.next_link_index, destination, title⟩] })

/-- The line written for one pending link: `"[{}]: {} {}"`. -/
def link_line (l : Link) : String :=
  "[" ++ toString l.index ++ "]: " ++ l.destination ++ " " ++ l.title

/-- The loop body of `write_pending_links`: for each pending link, in
queue order, write its line and then a newline (which re-flushes the
active styles, held fixed during the loop). -/
def write_links_loop (styles : List Sty) : List Link → List Tok
  | [] => []
  | l :: ls =>
      Tok.str (link_line l) :: Tok.sty Sty.Reset :: Tok.str "\n" ::
        (styles.map Tok.sty ++ write_links_loop styles ls)

/-- `Context::write_pending_links`: if any links are pending, write a
newline, enable the link color, write every pending link line (draining
the queue), then reset the last style. -/
def write_pending_links (c : Context) : Context × List Tok :=
  if c.pending_links.isEmpty then (c, [])
  else
    let p1 := newline c
    let p2 := enable_style Sty.FgBlue p1.1
    let body := write_links_loop p2.1.active_styles p2.1.pending_links
    let p3 := reset_last_style { p2.1 with pending_links := [] }
    (p3.1, p1.2 ++ p2.2 ++ body ++ p3.2)

/-- `start_tag`: write the start of a tag. -/
def start_tag (t : Tag) (c : Context) : Except RenderError (Context × List Tok) :=
  match t with
  | Tag.Paragraph => Except.ok (start_inline_text c)
  | Tag.Rule =>
      let p1 := start_inline_text c
      let p2 := enable_style Sty.FgLightBlack p1.1
      Except.ok (p2.1, p1.2 ++ p2.2 ++ [Tok.str (strRepeat "─" c.columns)])
  | Tag.Header level =>
      let p1 := write_pending_links c
      let p2 := start_inline_text p1.1
      let p3 := enable_style Sty.Bold p2.1
      let p4 := enable_style Sty.FgBlue p3.1
      Except.ok (p4.1, p1.2 ++ p2.2 ++ p3.2 ++ p4.2 ++ [Tok.str (strRepeat "┄" (level - 1))])
  | Tag.BlockQuote =>
      let c0 := { c with indent_level := c.indent_level + 4 }
      let p1 := start_inline_text c0
      let p2 := enable_style Sty.FgLightBlack p1.1
      let p3 := enable_emphasis p2.1
      Except.ok (p3.1, p1.2 ++ p2.2 ++ p3.2)
  | Tag.CodeBlock _ =>
      let p1 := start_inline_text c
      let p2 := enable_style Sty.FgYellow p1.1
      Except.ok (p2.1, p1.2 ++ p2.2)
  | Tag.List kind =>
      let frame := match kind with
        | some start => ListItemKind.Ordered start
        | none => ListItemKind.Unordered
      let c0 := { c with list_item_kind := c.list_item_kind ++ [frame] }
      Except.ok (c0, (newline c0).2)
  | Tag.Item =>
      let p1 := indent c
      let o1 := p1.2
      let c2 := { p1.1 with block_level := BlockLevel.Inline }
      match c2.list_item_kind.getLast? with
      | some ListItemKind.Unordered =>
          Except.ok
            ({ c2 with
                indent_level := c2.indent_level + 2,
                list_item_kind :=
                  c2.list_item_kind.dropLast ++ [ListItemKind.Unordered] },
             o1 ++ [Tok.str "• "])
      | some (ListItemKind.Ordered number) =>
          Except.ok
            ({ c2 with
                indent_level := c2.indent_level + 4,
                list_item_kind :=
                  c2.list_item_kind.dropLast ++ [ListItemKind.Ordered (number + 1)] },
             o1 ++ [Tok.str (rightAlign2 number ++ ". ")])
      | none => Except.error (RenderError.panicked "List item without list item kind")
  | Tag.FootnoteDefinition _ =>
      Except.error (RenderError.panicked "mdless does not support footnotes")
  | Tag.Table => Except.error (RenderError.panicked "mdless does not support tables")
  | Tag.TableHead => Except.error (RenderError.panicked "mdless does not support tables")
  | Tag.TableRow => Except.error (RenderError.panicked "mdless does not support tables")
  | Tag.TableCell => Except.error (RenderError.panicked "mdless does not support tables")
  | Tag.Emphasis => Except.ok (enable_emphasis c)
  | Tag.Strong => Except.ok (enable_style Sty.Bold c)
  | Tag.Code => Except.ok (enable_style Sty.FgYellow c)
  | Tag.Link _ _ => Except.ok (c, [])
  | Tag.Image _ _ =>
      Except.error (RenderError.panicked "mdless does not support images")

/-- `end_tag`: write the end of a tag. -/
def end_tag (t : Tag) (c : Context) : Except RenderError (Context × List Tok) :=
  match t with
  | Tag.Paragraph => Except.ok (end_inline_text_with_margin c)
  | Tag.Rule =>
      let c0 := { c with active_styles := c.active_styles.dropLast }
      Except.ok (end_inline_text_with_margin c0)
  | Tag.Header _ =>
      let c0 := { c with active_styles := c.active_styles.dropLast.dropLast }
      Except.ok (end_inline_text_with_margin c0)
  | Tag.BlockQuote =>
      if 4 ≤ c.indent_level ∧ 1 ≤ c.emphasis_level then
        let c0 := { c with
          indent_level := c.indent_level - 4,
          emphasis_level := c.emphasis_level - 1,
          active_styles := c.active_styles.dropLast }
        let p1 := reset_last_style c0
        let p2 := end_inline_text_with_margin p1.1
        Except.ok (p2.1, p1.2 ++ p2.2)
      else Except.error RenderError.underflow
  | Tag.CodeBlock _ =>
      let p1 := reset_last_style c
      let p2 := end_inline_text_with_margin p1.1
      Except.ok (p2.1, p1.2 ++ p2.2)
  | Tag.List _ =>
      let c0 := { c with list_item_kind := c.list_item_kind.dropLast }
      Except.ok (end_inline_text_with_margin c0)
  | Tag.Item =>
      match c.list_item_kind.getLast? with
      | some (ListItemKind.Ordered _) =>
          if 4 ≤ c.indent_level then
            Except.ok (end_inline_text_with_margin
              { c with indent_level := c.indent_level - 4 })
          else Except.error RenderError.underflow
      | some ListItemKind.Unordered =>
          if 2 ≤ c.indent_level then
            Except.ok (end_inline_text_with_margin
              { c with indent_level := c.indent_level - 2 })
          else Except.error RenderError.underflow
      | none => Except.ok (end_inline_text_with_margin c)
  | Tag.FootnoteDefinition _ => Except.ok (c, [])
  | Tag.Table => Except.ok (c, [])
  | Tag.TableHead => Except.ok (c, [])
  | Tag.TableRow => Except.ok (c, [])
  | Tag.TableCell => Except.ok (c, [])
  | Tag.Emphasis =>
      let p1 := reset_last_style c
      if 1 ≤ p1.1.emphasis_level then
        Except.ok ({ p1.1 with emphasis_level := p1.1.emphasis_level - 1 }, p1.2)
      else Except.error RenderError.underflow
  | Tag.Strong => Except.ok (reset_last_style c)
  | Tag.Code => Except.ok (reset_last_style c)
  | Tag.Link destination title =>
      if c.last_text = some destination then
        Except.ok (c, [])
      else
        let a := add_link destination title c
        let p1 := enable_style Sty.FgBlue a.2
        let p2 := reset_last_style p1.1
        Except.ok (p2.1,
          p1.2 ++ [Tok.str ("[" ++ toString a.1 ++ "]")] ++ p2.2)
  | Tag.Image _ _ => Except.ok (c, [])

/-- `write_event`: write a single event in the given context. -/
def write_event (e : Event) (c : Context) : Except RenderError (Context × List Tok) :=
  match e with
  | Event.SoftBreak => Except.ok (newline_and_indent c)
  | Event.HardBreak => Except.ok (newline_and_indent c)
  | Event.Text s => Except.ok ({ c with last_text := some s }, [Tok.str s])
  | Event.Start t => start_tag t c
  | Event.End t => end_tag t c
  | Event.Html _ =>
      Except.error (RenderError.panicked "mdless does not support HTML blocks")
  | Event.InlineHtml _ =>
      Except.error (RenderError.panicked "mdless does not support inline HTML")
  | Event.FootnoteReference _ =>
      Except.error (RenderError.panicked "mdless does not support footnotes")

/-- Process a list of events in order, threading the context and
concatenating the output. -/
def run_events : List Event → Context → Except RenderError (Context × List Tok)
  | [], c => Except.ok (c, [])
  | e :: es, c =>
      match write_event e c with
      | Except.ok (c1, o1) =>
          match run_events es c1 with
          | Except.ok (c2, o2) => Except.ok (c2, o1 ++ o2)
          | Except.error err => Except.error err
      | Except.error err => Except.error err

/-- `push_tty`: render a whole event stream from a fresh context, then
flush any remaining pending links. -/
def push_tty (columns : Nat) (events : List Event) : Except RenderError (List Tok) :=
  match run_events events (Context.new columns) with
  | Except.ok (c, o) => Except.ok (o ++ (write_pending_links c).2)
  | Except.error err => Except.error err

/-- Tags of constructs the renderer supports (everything that does not
`panic!` in `start_tag`). -/
def Tag.supported : Tag → Bool
  | Tag.Paragraph => true
  | Tag.Rule => true
  | Tag.Header _ => true
  | Tag.BlockQuote => true
  | Tag.CodeBlock _ => true
  | Tag.List _ => true
  | Tag.Item => true
  | Tag.Emphasis => true
  | Tag.Strong => true
  | Tag.Code => true
  | Tag.Link _ _ => true
  | _ => false

deriving instance DecidableEq for Except

/-! ### Characterization lemmas for the `Context` methods -/

/-- `start_inline_text` only changes the block level. -/
theorem start_inline_text_fst (c : Context) :
    (start_inline_text c).1 = { c with block_level := BlockLevel.Inline } := by
  unfold start_inline_text
  split <;> rfl

/-- `end_inline_text_with_margin` only changes the block level. -/
theorem end_inline_text_fst (c : Context) :
    (end_inline_text_with_margin c).1 = { c with block_level := BlockLevel.Block } := by
  unfold end_inline_text_with_margin
  split <;> rfl

/-- `write_pending_links` drains the queue and changes nothing else. -/
theorem write_pending_links_fst (c : Context) :
    (write_pending_links c).1 = { c with pending_links := [] } := by
  unfold write_pending_links
  split
  · next h =>
      have hp : c.pending_links = [] := by
        cases hl : c.pending_links with
        | nil => rfl
        | cons x xs => rw [hl] at h; simp [List.isEmpty] at h
      cases c
      simp_all
  · simp [newline, enable_style, reset_last_style, flush_styles, List.dropLast_concat]

/-- `enable_emphasis` increments the emphasis level and pushes one style
(italic at odd levels, upright at even levels). -/
theorem enable_emphasis_fst (c : Context) :
    (enable_emphasis c).1 =
      { c with
          emphasis_level := c.emphasis_level + 1,
          active_styles := c.active_styles ++
            [if (c.emphasis_level + 1) % 2 = 1 then Sty.Italic else Sty.NoItalic] } := by
  unfold enable_emphasis
  split <;> simp_all [enable_style]

/-! ### Claim theorems -/

/-- C1: processing a Link end-tag with destination equal to the last
observed literal text suppresses the reference entirely (no output, no
queue entry, counter unchanged); otherwise it writes exactly one bracketed
index (between the link-color push and the reset-and-reflush), enqueues
exactly one (index, destination, title) entry, and advances the counter by
one. -/
theorem c1_autolink_suppression (c : Context) (d t : String) :
    (c.last_text = some d → end_tag (Tag.Link d t) c = Except.ok (c, [])) ∧
    (c.last_text ≠ some d →
      end_tag (Tag.Link d t) c = Except.ok
        ({ c with
            pending_links := c.pending_links ++ [⟨c.next_link_index, d, t⟩],
            next_link_index := c.next_link_index + 1 },
         [Tok.sty Sty.FgBlue, Tok.str ("[" ++ toString c.next_link_index ++ "]"),
          Tok.sty Sty.Reset] ++ c.active_styles.map Tok.sty)) := by
  constructor
  · intro h
    simp [end_tag, h]
  · intro h
    simp [end_tag, h, add_link, enable_style, reset_last_style, flush_styles,
      List.dropLast_concat]

/-- C1 witness: a suppressed and a non-suppressed concrete link end. -/
theorem c1_autolink_suppression_witness :
    end_tag (Tag.Link "u" "t") { Context.new 80 with last_text := some "u" } =
      Except.ok ({ Context.new 80 with last_text := some "u" }, []) ∧
    end_tag (Tag.Link "v" "t") (Context.new 80) =
      Except.ok ({ Context.new 80 with
                    pending_links := [⟨1, "v", "t"⟩]
                    next_link_index := 2 },
        [Tok.sty Sty.FgBlue, Tok.str "[1]", Tok.sty Sty.Reset]) := by
  constructor
  · exact (c1_autolink_suppression { Context.new 80 with last_text := some "u" } "u" "t").1 rfl
  · have h := (c1_autolink_suppression (Context.new 80) "v" "t").2 (by decide)
    simpa using h

/-- C3 counterexample: the end-tags of unsupported constructs are not
fatal; `End(Table)` and `End(TableHead)` are successful no-ops. -/
theorem c3_unsupported_end_counterexample :
    end_tag Tag.Table (Context.new 80) = Except.ok (Context.new 80, []) ∧
    write_event (Event.End Tag.TableHead) (Context.new 80) =
      Except.ok (Context.new 80, []) ∧
    write_event (Event.End (Tag.Image "d" "t")) (Context.new 80) =
      Except.ok (Context.new 80, []) :=
  ⟨rfl, rfl, rfl⟩

/-- C3 amended: unsupported events and unsupported start-tags cause
immediate fatal failure with a specific diagnostic naming the construct;
the end-tags of unsupported constructs, however, are silent no-ops. -/
theorem c3_unsupported_fatal_amended (c : Context) :
    (∀ s, write_event (Event.Html s) c =
      Except.error (RenderError.panicked "mdless does not support HTML blocks")) ∧
    (∀ s, write_event (Event.InlineHtml s) c =
      Except.error (RenderError.panicked "mdless does not support inline HTML")) ∧
    (∀ s, write_event (Event.FootnoteReference s) c =
      Except.error (RenderError.panicked "mdless does not support footnotes")) ∧
    (∀ s, start_tag (Tag.FootnoteDefinition s) c =
      Except.error (RenderError.panicked "mdless does not support footnotes")) ∧
    start_tag Tag.Table c =
      Except.error (RenderError.panicked "mdless does not support tables") ∧
    start_tag Tag.TableHead c =
      Except.error (RenderError.panicked "mdless does not support tables") ∧
    start_tag Tag.TableRow c =
      Except.error (RenderError.panicked "mdless does not support tables") ∧
    start_tag Tag.TableCell c =
      Except.error (RenderError.panicked "mdless does not support tables") ∧
    (∀ d t, start_tag (Tag.Image d t) c =
      Except.error (RenderError.panicked "mdless does not support images")) ∧
    (∀ s, end_tag (Tag.FootnoteDefinition s) c = Except.ok (c, [])) ∧
    end_tag Tag.Table c = Except.ok (c, []) ∧
    end_tag Tag.TableHead c = Except.ok (c, []) ∧
    end_tag Tag.TableRow c = Except.ok (c, []) ∧
    end_tag Tag.TableCell c = Except.ok (c, []) ∧
    (∀ d t, end_tag (Tag.Image d t) c = Except.ok (c, [])) := by
  refine ⟨fun s => rfl, fun s => rfl, fun s => rfl, fun s => rfl, rfl, rfl, rfl, rfl,
    fun d t => rfl, fun s => rfl, rfl, rfl, rfl, rfl, fun d t => rfl⟩

/-- C5 counterexample: a soft break writes the global reset before the
newline byte, not after it as the claim states. -/
theorem c5_break_order_counterexample :
    write_event Event.SoftBreak (Context.new 80) =
      Except.ok (Context.new 80, [Tok.sty Sty.Reset, Tok.str "\n", Tok.str ""]) ∧
    [Tok.sty Sty.Reset, Tok.str "\n", Tok.str ""] ≠
      [Tok.str "\n", Tok.sty Sty.Reset, Tok.str ""] :=
  ⟨rfl, by decide⟩

/-- C5 amended: soft and hard breaks are handled identically; each writes,
in order, the global style reset, then a newline byte, then the
concatenation in push order of every directive on the style stack, then
the current indentation whitespace. -/
theorem c5_break_events_amended (c : Context) :
    write_event Event.SoftBreak c = write_event Event.HardBreak c ∧
    write_event Event.SoftBreak c =
      Except.ok (c, [Tok.sty Sty.Reset, Tok.str "\n"] ++ c.active_styles.map Tok.sty
        ++ [Tok.str (spaces c.indent_level)]) := by
  constructor
  · rfl
  · simp [write_event, newline_and_indent, newline, indent, flush_styles]

/-- C6 counterexample: the header start writes the tick marks after
pushing the bold and accent-color styles, not before. -/
theorem c6_header_order_counterexample :
    start_tag (Tag.Header 3) (Context.new 80) =
      Except.ok ({ Context.new 80 with active_styles := [Sty.Bold, Sty.FgBlue] },
        [Tok.sty Sty.Bold, Tok.sty Sty.FgBlue, Tok.str "┄┄"]) ∧
    [Tok.sty Sty.Bold, Tok.sty Sty.FgBlue, Tok.str "┄┄"] ≠
      [Tok.str "┄┄", Tok.sty Sty.Bold, Tok.sty Sty.FgBlue] :=
  ⟨by decide, by decide⟩

/-- C6 amended: `Header(level)` flushes all pending links first, then
transitions to inline mode, then pushes bold and the accent color (each
written as it is pushed), and then writes level−1 tick marks. -/
theorem c6_header_start_amended (c : Context) (level : Nat) :
    start_tag (Tag.Header level) c =
      Except.ok
        ({ c with
            pending_links := []
            block_level := BlockLevel.Inline
            active_styles := c.active_styles ++ [Sty.Bold, Sty.FgBlue] },
         (write_pending_links c).2 ++
           (start_inline_text { c with pending_links := [] }).2 ++
           [Tok.sty Sty.Bold, Tok.sty Sty.FgBlue,
            Tok.str (strRepeat "┄" (level - 1))]) := by
  simp [start_tag, write_pending_links_fst, start_inline_text_fst, enable_style]

/-- C9 counterexample: after `Text "u"`, two consecutive `End(Link "u")`
with no intervening text event are both suppressed — the last text span is
not consumed by the first suppression. -/
theorem c9_used_once_counterexample :
    run_events
        [Event.Text "u", Event.End (Tag.Link "u" "t"), Event.End (Tag.Link "u" "t")]
        (Context.new 80) =
      Except.ok ({ Context.new 80 with last_text := some "u" }, [Tok.str "u"]) := by
  decide

/-- C9 amended: the last literal text span persists until superseded by
the next text event; a suppressed Link end-tag leaves the context (and in
particular the span) unchanged, so a second Link end-tag with the same
destination and no intervening text event is suppressed as well. -/
theorem c9_last_text_persists_amended (c : Context) (d t₁ t₂ : String)
    (h : c.last_text = some d) :
    end_tag (Tag.Link d t₁) c = Except.ok (c, []) ∧
    run_events [Event.End (Tag.Link d t₁), Event.End (Tag.Link d t₂)] c =
      Except.ok (c, []) := by
  have h1 : end_tag (Tag.Link d t₁) c = Except.ok (c, []) := by simp [end_tag, h]
  have h2 : end_tag (Tag.Link d t₂) c = Except.ok (c, []) := by simp [end_tag, h]
  refine ⟨h1, ?_⟩
  simp [run_events, write_event, h1, h2]

/-- C9 witness: two consecutive same-destination link ends on a concrete
context, both suppressed. -/
theorem c9_last_text_persists_witness :
    end_tag (Tag.Link "u" "a") { Context.new 80 with last_text := some "u" } =
      Except.ok ({ Context.new 80 with last_text := some "u" }, []) ∧
    run_events [Event.End (Tag.Link "u" "a"), Event.End (Tag.Link "u" "b")]
        { Context.new 80 with last_text := some "u" } =
      Except.ok ({ Context.new 80 with last_text := some "u" }, []) :=
  c9_last_text_persists_amended { Context.new 80 with last_text := some "u" } "u" "a" "b" rfl

/-- C10: `End(BlockQuote)` and `End(Emphasis)` decrement unsigned counters
without a guard; on a stream whose first event is one of them the
subtraction underflows and the run aborts with the plain underflow error
rather than any renderer-specific diagnostic, and in general the two
end-tags are defined exactly when the indentation width is at least 4 and
the emphasis depth at least 1 (for block quotes), respectively the
emphasis depth at least 1 (for emphasis). -/
theorem c10_unguarded_underflow (c : Context) :
    write_event (Event.End Tag.BlockQuote) (Context.new 80) =
      Except.error RenderError.underflow ∧
    write_event (Event.End Tag.Emphasis) (Context.new 80) =
      Except.error RenderError.underflow ∧
    ((∃ r, end_tag Tag.BlockQuote c = Except.ok r) ↔
      4 ≤ c.indent_level ∧ 1 ≤ c.emphasis_level) ∧
    ((∃ r, end_tag Tag.Emphasis c = Except.ok r) ↔ 1 ≤ c.emphasis_level) := by
  refine ⟨by decide, by decide, ?_, ?_⟩
  · simp only [end_tag]
    split
    · next h => exact ⟨fun _ => h, fun _ => ⟨_, rfl⟩⟩
    · next h => simp [h]
  · simp only [end_tag, reset_last_style]
    split
    · next h => exact ⟨fun _ => h, fun _ => ⟨_, rfl⟩⟩
    · next h => simp [h]

/-- C4: for every supported construct, the start-tag's style pushes are
exactly undone by the end-tag's pops: if the style stack at the matching
end-tag equals the stack the start-tag produced (the body is balanced),
then after the end-tag the stack equals what it was before the
start-tag. -/
theorem c4_style_stack_balance (t : Tag) (c₀ c₁ cₑ c₂ : Context) (o₁ o₂ : List Tok)
    (hs : t.supported = true)
    (hstart : start_tag t c₀ = Except.ok (c₁, o₁))
    (hbody : cₑ.active_styles = c₁.active_styles)
    (hend : end_tag t cₑ = Except.ok (c₂, o₂)) :
    c₂.active_styles = c₀.active_styles := by
  cases t <;>
    simp only [Tag.supported, Bool.false_eq_true] at hs <;>
    simp only [start_tag] at hstart <;>
    simp only [end_tag] at hend <;>
    (repeat' split at hstart) <;>
    (repeat' split at hend) <;>
    simp_all [start_inline_text_fst, end_inline_text_fst, write_pending_links_fst,
      enable_emphasis_fst, enable_style, reset_last_style, add_link, flush_styles,
      List.dropLast_concat]
  all_goals (
    (first
      | (obtain ⟨hS, -⟩ := hstart; subst hS)
      | (replace hstart := congrArg Prod.fst hstart
         simp only [start_inline_text_fst, end_inline_text_fst, enable_emphasis_fst] at hstart
         subst hstart))
    (first
      | (obtain ⟨hE, -⟩ := hend; subst hE)
      | (replace hend := congrArg Prod.fst hend
         simp only [start_inline_text_fst, end_inline_text_fst, enable_emphasis_fst] at hend
         subst hend))
    simp_all [indent, enable_emphasis_fst, enable_style, List.dropLast_concat])

/-- C4 witness: a concrete balanced Strong start/end pair restores the
(empty) style stack. -/
theorem c4_style_stack_balance_witness :
    ({ Context.new 80 with active_styles := ([] : List Sty) } : Context).active_styles =
      (Context.new 80).active_styles :=
  c4_style_stack_balance Tag.Strong (Context.new 80)
    { Context.new 80 with active_styles := [Sty.Bold] }
    { Context.new 80 with active_styles := [Sty.Bold] }
    { Context.new 80 with active_styles := [] }
    [Tok.sty Sty.Bold] [Tok.sty Sty.Reset] rfl rfl rfl rfl

/-- C2: the link index counter starts at 1; flushing pending links leaves
it unchanged; and every successfully processed event either is a
non-suppressed Link end-tag — which advances the counter by exactly 1 and
enqueues exactly one entry carrying the old counter value as its index —
or leaves the counter unchanged and enqueues nothing.  Hence the indices
assigned to non-suppressed links are exactly 1, 2, 3, … in order of first
enqueue. -/
theorem c2_link_index_counter :
    (∀ columns, (Context.new columns).next_link_index = 1) ∧
    (∀ c : Context, (write_pending_links c).1.next_link_index = c.next_link_index) ∧
    (∀ (e : Event) (c c' : Context) (out : List Tok),
      write_event e c = Except.ok (c', out) →
        (∃ d title, e = Event.End (Tag.Link d title) ∧ c.last_text ≠ some d ∧
            c'.next_link_index = c.next_link_index + 1 ∧
            c'.pending_links = c.pending_links ++ [⟨c.next_link_index, d, title⟩]) ∨
        (c'.next_link_index = c.next_link_index ∧
         ∀ l, l ∈ c'.pending_links → l ∈ c.pending_links)) := by
  refine ⟨fun columns => rfl, ?_, ?_⟩
  · intro c
    simp [write_pending_links_fst]
  · intro e c c' out h
    cases e with
    | End t =>
        cases t with
        | Link d title =>
            simp only [write_event, end_tag] at h
            by_cases hd : c.last_text = some d
            · right
              rw [if_pos hd] at h
              simp_all
            · left
              rw [if_neg hd] at h
              simp only [add_link, enable_style, reset_last_style, Except.ok.injEq,
                Prod.ext_iff] at h
              obtain ⟨hc, -⟩ := h
              subst hc
              exact ⟨d, title, rfl, hd, by simp, by simp⟩
        | _ =>
            right
            simp only [write_event, end_tag] at h <;>
            (repeat' split at h) <;>
            (try simp only [Except.ok.injEq, Prod.ext_iff, end_inline_text_fst,
              reset_last_style, flush_styles] at h) <;>
            (try (obtain ⟨hc, -⟩ := h; subst hc)) <;>
            simp_all
    | Start t =>
        right
        cases t <;>
          simp only [write_event, start_tag] at h <;>
          (repeat' split at h) <;>
          (try simp only [Except.ok.injEq, Prod.ext_iff, start_inline_text_fst,
            write_pending_links_fst, enable_style, enable_emphasis_fst, indent,
            newline] at h) <;>
          (try (obtain ⟨hc, -⟩ := h; subst hc)) <;>
          simp_all
    | _ =>
        right
        simp only [write_event, newline_and_indent, Except.ok.injEq, Prod.ext_iff] at h <;>
        (try (obtain ⟨hc, -⟩ := h; subst hc)) <;>
        simp_all

/-- C2 witness: a concrete event step (a soft break) at a concrete
context, which leaves the counter and the queue unchanged. -/
theorem c2_link_index_counter_witness :
    (∃ d title, Event.SoftBreak = Event.End (Tag.Link d title) ∧
        (Context.new 80).last_text ≠ some d ∧
        (Context.new 80).next_link_index = (Context.new 80).next_link_index + 1 ∧
        (Context.new 80).pending_links =
          (Context.new 80).pending_links ++ [⟨(Context.new 80).next_link_index, d, title⟩]) ∨
    ((Context.new 80).next_link_index = (Context.new 80).next_link_index ∧
     ∀ l, l ∈ (Context.new 80).pending_links → l ∈ (Context.new 80).pending_links) :=
  c2_link_index_counter.2.2 Event.SoftBreak (Context.new 80) (Context.new 80)
    [Tok.sty Sty.Reset, Tok.str "\n", Tok.str ""] rfl

/-- One list item processed to completion: `Start(Item)` followed by
`End(Item)`, keeping only the resulting context. -/
def itemPair (c : Context) : Except RenderError Context :=
  match start_tag Tag.Item c with
  | Except.ok p1 =>
      match end_tag Tag.Item p1.1 with
      | Except.ok p2 => Except.ok p2.1
      | Except.error e => Except.error e
  | Except.error e => Except.error e

/-- `j` successive list items processed to completion. -/
def iterItemPairs : Nat → Context → Except RenderError Context
  | 0, c => Except.ok c
  | j + 1, c =>
      match itemPair c with
      | Except.ok c1 => iterItemPairs j c1
      | Except.error e => Except.error e

/-- `Start(Item)` with an ordered top frame writes the indentation and the
right-aligned two-column marker, adds 4 to the indentation, and replaces
the top frame with the incremented number. -/
theorem start_tag_item_ordered (c : Context) (ks : List ListItemKind) (n : Nat)
    (h : c.list_item_kind = ks ++ [ListItemKind.Ordered n]) :
    start_tag Tag.Item c = Except.ok
      ({ c with
          block_level := BlockLevel.Inline
          indent_level := c.indent_level + 4
          list_item_kind := ks ++ [ListItemKind.Ordered (n + 1)] },
       [Tok.str (spaces c.indent_level), Tok.str (rightAlign2 n ++ ". ")]) := by
  simp [start_tag, indent, h, List.getLast?_concat, List.dropLast_concat]

/-- `Start(Item)` with an unordered top frame writes the indentation and a
bullet marker, adds 2 to the indentation, and keeps the frame. -/
theorem start_tag_item_unordered (c : Context) (ks : List ListItemKind)
    (h : c.list_item_kind = ks ++ [ListItemKind.Unordered]) :
    start_tag Tag.Item c = Except.ok
      ({ c with
          block_level := BlockLevel.Inline
          indent_level := c.indent_level + 2
          list_item_kind := ks ++ [ListItemKind.Unordered] },
       [Tok.str (spaces c.indent_level), Tok.str "• "]) := by
  simp [start_tag, indent, h, List.getLast?_concat, List.dropLast_concat]

/-- `End(Item)` with an ordered top frame subtracts 4 from the
indentation and closes the block. -/
theorem end_tag_item_ordered (c : Context) (ks : List ListItemKind) (m : Nat)
    (hk : c.list_item_kind = ks ++ [ListItemKind.Ordered m]) (hi : 4 ≤ c.indent_level) :
    end_tag Tag.Item c = Except.ok
      (end_inline_text_with_margin { c with indent_level := c.indent_level - 4 }) := by
  simp [end_tag, hk, List.getLast?_concat, hi]

/-- `End(Item)` with an unordered top frame subtracts 2 from the
indentation and closes the block. -/
theorem end_tag_item_unordered (c : Context) (ks : List ListItemKind)
    (hk : c.list_item_kind = ks ++ [ListItemKind.Unordered]) (hi : 2 ≤ c.indent_level) :
    end_tag Tag.Item c = Except.ok
      (end_inline_text_with_margin { c with indent_level := c.indent_level - 2 }) := by
  simp [end_tag, hk, List.getLast?_concat, hi]

/-- A full item at an ordered frame advances the frame number by one and
restores the indentation. -/
theorem itemPair_ordered (c : Context) (ks : List ListItemKind) (n : Nat)
    (h : c.list_item_kind = ks ++ [ListItemKind.Ordered n]) :
    itemPair c = Except.ok
      { c with
          block_level := BlockLevel.Block
          list_item_kind := ks ++ [ListItemKind.Ordered (n + 1)] } := by
  simp only [itemPair, start_tag_item_ordered c ks n h]
  rw [end_tag_item_ordered _ ks (n + 1) (by simp) (by simp)]
  simp [end_inline_text_fst]

/-- `j` full items starting at an ordered frame with number `s` leave the
frame at `s + j` and the indentation unchanged. -/
theorem iterItemPairs_ordered (j : Nat) :
    ∀ (s : Nat) (ks : List ListItemKind) (c : Context),
      c.list_item_kind = ks ++ [ListItemKind.Ordered s] →
      ∃ cj, iterItemPairs j c = Except.ok cj ∧
        cj.list_item_kind = ks ++ [ListItemKind.Ordered (s + j)] ∧
        cj.indent_level = c.indent_level := by
  induction j with
  | zero => exact fun s ks c h => ⟨c, rfl, by simpa using h, rfl⟩
  | succ j ih =>
      intro s ks c h
      have h1 := itemPair_ordered c ks s h
      obtain ⟨cj, hj, hkj, hij⟩ := ih (s + 1) ks
        { c with
            block_level := BlockLevel.Block
            list_item_kind := ks ++ [ListItemKind.Ordered (s + 1)] } (by simp)
      refine ⟨cj, ?_, ?_, ?_⟩
      · simp [iterItemPairs, h1, hj]
      · rw [hkj]
        have hsj : s + 1 + j = s + (j + 1) := by omega
        rw [hsj]
      · simpa using hij

/-- C7: a list opened with ordered start `s` pushes the frame
`Ordered s`; after `j` complete items at that level the frame holds
`s + j` and the indentation is restored, and the next item start-tag
writes the right-aligned two-column marker for `s + j` followed by ". ",
adds 4 to the indentation, and replaces the top frame with
`Ordered (s + j + 1)` — frames below the top (`ks`, covering sibling and
enclosing lists) are untouched throughout. -/
theorem c7_ordered_list_numbering (s : Nat) :
    (∀ c : Context, start_tag (Tag.List (some s)) c =
      Except.ok
        ({ c with list_item_kind := c.list_item_kind ++ [ListItemKind.Ordered s] },
         (newline { c with list_item_kind := c.list_item_kind ++ [ListItemKind.Ordered s] }).2)) ∧
    (∀ (j : Nat) (ks : List ListItemKind) (c : Context),
      c.list_item_kind = ks ++ [ListItemKind.Ordered s] →
      ∃ cj, iterItemPairs j c = Except.ok cj ∧
        cj.list_item_kind = ks ++ [ListItemKind.Ordered (s + j)] ∧
        cj.indent_level = c.indent_level ∧
        start_tag Tag.Item cj = Except.ok
          ({ cj with
              block_level := BlockLevel.Inline
              indent_level := cj.indent_level + 4
              list_item_kind := ks ++ [ListItemKind.Ordered (s + j + 1)] },
           [Tok.str (spaces cj.indent_level), Tok.str (rightAlign2 (s + j) ++ ". ")])) := by
  constructor
  · intro c
    simp [start_tag]
  · intro j ks c h
    obtain ⟨cj, hj, hk, hi⟩ := iterItemPairs_ordered j s ks c h
    exact ⟨cj, hj, hk, hi, start_tag_item_ordered cj ks (s + j) hk⟩

/-- C7 witness: two complete items of a list opened at 5, after which the
next marker is " 7. ". -/
theorem c7_ordered_list_numbering_witness :
    ∃ cj, iterItemPairs 2 { Context.new 80 with list_item_kind := [ListItemKind.Ordered 5] } =
        Except.ok cj ∧
      cj.list_item_kind = [] ++ [ListItemKind.Ordered (5 + 2)] ∧
      cj.indent_level =
        ({ Context.new 80 with list_item_kind := [ListItemKind.Ordered 5] } : Context).indent_level ∧
      start_tag Tag.Item cj = Except.ok
        ({ cj with
            block_level := BlockLevel.Inline
            indent_level := cj.indent_level + 4
            list_item_kind := [] ++ [ListItemKind.Ordered (5 + 2 + 1)] },
         [Tok.str (spaces cj.indent_level), Tok.str (rightAlign2 (5 + 2) ++ ". ")]) :=
  (c7_ordered_list_numbering 5).2 2 []
    { Context.new 80 with list_item_kind := [ListItemKind.Ordered 5] } rfl

/-- C8: indentation is balanced for block quotes and list items: the
start-tag adds its fixed delta (4 for a block quote, 4 for an ordered
item, 2 for an unordered item), and the matching end-tag — processed at
an indentation that carries that delta and, for items, with a top frame
of the same kind — subtracts the same delta, restoring the indentation
that held before the start-tag. -/
theorem c8_indent_balance (c : Context) :
    ((start_tag Tag.BlockQuote c).map (fun p => p.1.indent_level) =
        Except.ok (c.indent_level + 4)) ∧
    (∀ c' c₂ o₂, c'.indent_level = c.indent_level + 4 →
      end_tag Tag.BlockQuote c' = Except.ok (c₂, o₂) →
      c₂.indent_level = c.indent_level) ∧
    (∀ ks n, c.list_item_kind = ks ++ [ListItemKind.Ordered n] →
      (start_tag Tag.Item c).map (fun p => p.1.indent_level) =
        Except.ok (c.indent_level + 4) ∧
      (∀ c' c₂ o₂ ks' m, c'.indent_level = c.indent_level + 4 →
        c'.list_item_kind = ks' ++ [ListItemKind.Ordered m] →
        end_tag Tag.Item c' = Except.ok (c₂, o₂) →
        c₂.indent_level = c.indent_level)) ∧
    (∀ ks, c.list_item_kind = ks ++ [ListItemKind.Unordered] →
      (start_tag Tag.Item c).map (fun p => p.1.indent_level) =
        Except.ok (c.indent_level + 2) ∧
      (∀ c' c₂ o₂ ks', c'.indent_level = c.indent_level + 2 →
        c'.list_item_kind = ks' ++ [ListItemKind.Unordered] →
        end_tag Tag.Item c' = Except.ok (c₂, o₂) →
        c₂.indent_level = c.indent_level)) := by
  refine ⟨?_, ?_, ?_, ?_⟩
  · simp [start_tag, start_inline_text_fst, enable_style, enable_emphasis_fst, Except.map]
  · intro c' c₂ o₂ h4 hend
    simp only [end_tag] at hend
    split at hend
    · simp only [Except.ok.injEq, Prod.ext_iff, end_inline_text_fst, reset_last_style,
        flush_styles] at hend
      obtain ⟨hc, -⟩ := hend
      subst hc
      simp [h4]
    · exact absurd hend (by simp)
  · intro ks n hk
    refine ⟨by simp [start_tag_item_ordered c ks n hk, Except.map], ?_⟩
    intro c' c₂ o₂ ks' m h4 hk' hend
    rw [end_tag_item_ordered c' ks' m hk' (by omega)] at hend
    simp only [Except.ok.injEq, Prod.ext_iff, end_inline_text_fst] at hend
    obtain ⟨hc, -⟩ := hend
    subst hc
    simp [h4]
  · intro ks hk
    refine ⟨by simp [start_tag_item_unordered c ks hk, Except.map], ?_⟩
    intro c' c₂ o₂ ks' h2 hk' hend
    rw [end_tag_item_unordered c' ks' hk' (by omega)] at hend
    simp only [Except.ok.injEq, Prod.ext_iff, end_inline_text_fst] at hend
    obtain ⟨hc, -⟩ := hend
    subst hc
    simp [h2]

/-- C8 witness: closing a block quote from indentation 4 restores the
fresh context's indentation 0. -/
theorem c8_indent_balance_witness :
    ({ Context.new 80 with block_level := BlockLevel.Block } : Context).indent_level =
      (Context.new 80).indent_level :=
  (c8_indent_balance (Context.new 80)).2.1
    { Context.new 80 with indent_level := 4, emphasis_level := 1 }
    { Context.new 80 with block_level := BlockLevel.Block }
    [Tok.sty Sty.Reset, Tok.sty Sty.Reset, Tok.str "\n"] rfl rfl
